import Mathlib

/-!
Shallow embedding of src/unifi_grafana_streamer.py (UniFi → Grafana event
streamer): the event model with its two serialization views, the three source
adapters with their dedup logic, the annotation forwarder, and the dedup-store
eviction step of the polling loop.  Machine strings are Lean Strings, JSON
records are structures with Option fields (Python dict.get), Python integers
are Int, and fallible HTTP calls are Except values supplied as inputs.
-/

/-- Python str() / f-string rendering of an optional string (None renders as
the four characters of the word None). -/
def pyShow : Option String → String
  | none => "None"
  | some s => s

/-- Reference form of the decimal digit characters of a natural number, most
significant first (well-founded recursion; used in proofs). -/
def decCharsWF (n : Nat) : List Char :=
  if _h : n < 10 then [Nat.digitChar n]
  else decCharsWF (n / 10) ++ [Nat.digitChar (n % 10)]
  decreasing_by exact Nat.div_lt_self (by omega) (by omega)

/-- Fuel-driven worker for the decimal digit characters of a natural number
(structural recursion, so the kernel can evaluate it). -/
def natDigitsAux : Nat → Nat → List Char → List Char
  | 0, _, acc => acc
  | fuel + 1, n, acc =>
    if n < 10 then Nat.digitChar n :: acc
    else natDigitsAux fuel (n / 10) (Nat.digitChar (n % 10) :: acc)

/-- Decimal digit characters of a natural number, most significant first,
modelling Python decimal rendering of a non-negative int. -/
def natToDecChars (n : Nat) : List Char := natDigitsAux (n + 1) n []

/-- Decimal rendering of a natural number as a string. -/
def natDec (n : Nat) : String := String.mk (natToDecChars n)

/-- Python decimal rendering of an int (minus sign for negatives). -/
def intToDec (n : Int) : String :=
  if n < 0 then "-" ++ natDec n.natAbs else natDec n.toNat

/-- Python f-string rendering of an optional int. -/
def pyShowInt : Option Int → String
  | none => "None"
  | some n => intToDec n

/-- Python str.upper for ASCII strings. -/
def pyUpper (s : String) : String := String.mk (s.data.map Char.toUpper)

/-- Worker for pyTitle: the flag records whether the previous character was
alphabetic (cased), in which case a letter is lowercased instead of
capitalized. -/
def titleAux : Bool → List Char → List Char
  | _, [] => []
  | prevAlpha, c :: cs =>
    (if c.isAlpha then (if prevAlpha then c.toLower else c.toUpper) else c)
      :: titleAux c.isAlpha cs

/-- Python str.title for ASCII strings: first letter of every run of letters
uppercased, later letters lowercased, other characters untouched. -/
def pyTitle (s : String) : String := String.mk (titleAux false s.data)

/-- Days since 1970-01-01 of a proleptic-Gregorian civil date, floor-division
form of the standard civil-from-days algorithm (Python // is Int.fdiv). -/
def daysFromCivil (y m d : Int) : Int :=
  let y' := y - (if m ≤ 2 then 1 else 0)
  let era := Int.fdiv y' 400
  let yoe := y' - era * 400
  let mp := if m > 2 then m - 3 else m + 9
  let doy := Int.fdiv (153 * mp + 2) 5 + d - 1
  let doe := yoe * 365 + Int.fdiv yoe 4 - Int.fdiv yoe 100 + doy
  era * 146097 + doe - 719468

/-- Civil date (year, month, day) of a count of days since 1970-01-01. -/
def civilFromDays (z : Int) : Int × Int × Int :=
  let z' := z + 719468
  let era := Int.fdiv z' 146097
  let doe := z' - era * 146097
  let yoe :=
    Int.fdiv (doe - Int.fdiv doe 1460 + Int.fdiv doe 36524 - Int.fdiv doe 146096) 365
  let y := yoe + era * 400
  let doy := doe - (365 * yoe + Int.fdiv yoe 4 - Int.fdiv yoe 100)
  let mp := Int.fdiv (5 * doy + 2) 153
  let d := doy - Int.fdiv (153 * mp + 2) 5 + 1
  let m := mp + (if mp < 10 then 3 else -9)
  (y + (if m ≤ 2 then 1 else 0), m, d)

/-- Left-pad a string with zeros to the given width. -/
def padZeros (w : Nat) (s : String) : String :=
  String.mk (List.replicate (w - s.length) '0') ++ s

/-- Two-digit zero-padded rendering of a natural number. -/
def pad2 (n : Nat) : String := padZeros 2 (natDec n)

/-- datetime.fromtimestamp(ms / 1000, tz=timezone.utc).isoformat() for an
epoch-millisecond value: ISO-8601 text with +00:00 offset, microseconds
printed as six digits only when non-zero.  Exact integer arithmetic stands in
for the float division, which is exact to the microsecond in the representable
range. -/
def isoformatFromEpochMs (ms : Int) : String :=
  let secs := Int.fdiv ms 1000
  let micro := (Int.emod ms 1000).toNat * 1000
  let days := Int.fdiv secs 86400
  let sod := (Int.emod secs 86400).toNat
  let c := civilFromDays days
  padZeros 4 (natDec c.1.toNat) ++ "-" ++ pad2 c.2.1.toNat ++ "-" ++
    pad2 c.2.2.toNat ++ "T" ++ pad2 (sod / 3600) ++ ":" ++
    pad2 (sod % 3600 / 60) ++ ":" ++ pad2 (sod % 60) ++
    (if micro = 0 then "" else "." ++ padZeros 6 (natDec micro)) ++ "+00:00"

/-- Value of an ASCII digit character, None otherwise. -/
def digitVal (c : Char) : Option Nat :=
  if c.isDigit then some (c.toNat - 48) else none

/-- Parse exactly the given number of decimal digits, accumulating their
value. -/
def parseFixedAux : Nat → Nat → List Char → Option (Nat × List Char)
  | acc, 0, cs => some (acc, cs)
  | acc, w + 1, c :: cs =>
    match digitVal c with
    | some d => parseFixedAux (10 * acc + d) w cs
    | none => none
  | _, _ + 1, [] => none

/-- Parse a fixed-width decimal number. -/
def parseFixed (w : Nat) (cs : List Char) : Option (Nat × List Char) :=
  parseFixedAux 0 w cs

/-- Split a maximal run of leading digits from the rest. -/
def takeDigits : List Char → List Char × List Char
  | [] => ([], [])
  | c :: cs =>
    if c.isDigit then
      let p := takeDigits cs
      (c :: p.1, p.2)
    else ([], c :: cs)

/-- Optional fractional-second part: a dot followed by one to six digits,
scaled to microseconds; absent fraction parses as zero microseconds. -/
def parseMicro (cs : List Char) : Option (Nat × List Char) :=
  match cs with
  | '.' :: rest =>
    let p := takeDigits rest
    let k := p.1.length
    if 1 ≤ k ∧ k ≤ 6 then
      some ((p.1.foldl (fun a c => 10 * a + (c.toNat - 48)) 0) * 10 ^ (6 - k), p.2)
    else none
  | _ => some (0, cs)

/-- Sign character of a UTC offset. -/
def parseSign : List Char → Option (Int × List Char)
  | '+' :: cs => some (1, cs)
  | '-' :: cs => some (-1, cs)
  | _ => none

/-- Require one specific character. -/
def expectChar (c : Char) : List Char → Option (List Char)
  | d :: cs => if d = c then some cs else none
  | [] => none

/-- Gregorian leap-year test. -/
def isLeap (y : Nat) : Bool :=
  (y % 4 = 0 && y % 100 != 0) || y % 400 = 0

/-- Number of days of a month in a year. -/
def daysInMonth (y m : Nat) : Nat :=
  if m = 2 then (if isLeap y then 29 else 28)
  else if m = 4 ∨ m = 6 ∨ m = 9 ∨ m = 11 then 30
  else 31

/-- Date part YYYY-MM-DD of an ISO-8601 string. -/
def parseDatePart (cs : List Char) : Option (Nat × Nat × Nat × List Char) := do
  let (y, cs) ← parseFixed 4 cs
  let cs ← expectChar '-' cs
  let (mo, cs) ← parseFixed 2 cs
  let cs ← expectChar '-' cs
  let (d, cs) ← parseFixed 2 cs
  if 1 ≤ y ∧ 1 ≤ mo ∧ mo ≤ 12 ∧ 1 ≤ d ∧ d ≤ daysInMonth y mo then
    some (y, mo, d, cs)
  else none

/-- Time part HH:MM:SS[.ffffff] of an ISO-8601 string. -/
def parseTimePart (cs : List Char) : Option (Nat × Nat × Nat × Nat × List Char) := do
  let (h, cs) ← parseFixed 2 cs
  let cs ← expectChar ':' cs
  let (mi, cs) ← parseFixed 2 cs
  let cs ← expectChar ':' cs
  let (s, cs) ← parseFixed 2 cs
  let (micro, cs) ← parseMicro cs
  if h ≤ 23 ∧ mi ≤ 59 ∧ s ≤ 59 then some (h, mi, s, micro, cs) else none

/-- UTC offset part ±HH:MM of an ISO-8601 string, as signed offset seconds;
the whole remaining input must be consumed. -/
def parseOffsetPart (cs : List Char) : Option Int := do
  let (sgn, cs) ← parseSign cs
  let (oh, cs) ← parseFixed 2 cs
  let cs ← expectChar ':' cs
  let (om, cs) ← parseFixed 2 cs
  if cs = [] ∧ oh ≤ 23 ∧ om ≤ 59 then
    some (sgn * ((Int.ofNat oh) * 3600 + (Int.ofNat om) * 60))
  else none

/-- datetime.fromisoformat on an offset-aware ISO-8601 string
YYYY-MM-DDTHH:MM:SS[.ffffff]±HH:MM, returning the epoch seconds of the
whole-second part together with the microsecond part. -/
def fromisoChars (cs : List Char) : Option (Int × Nat) := do
  let (y, mo, d, cs) ← parseDatePart cs
  let cs ← expectChar 'T' cs
  let (h, mi, s, micro, cs) ← parseTimePart cs
  let off ← parseOffsetPart cs
  let days := daysFromCivil (Int.ofNat y) (Int.ofNat mo) (Int.ofNat d)
  let secs := days * 86400 + (Int.ofNat h) * 3600 + (Int.ofNat mi) * 60 +
    (Int.ofNat s) - off
  some (secs, micro)

/-- str.replace of every Z character with +00:00, as applied to the event
timestamp before datetime.fromisoformat. -/
def zreplace (s : String) : String :=
  String.mk (s.data.foldr
    (fun c acc =>
      if c = 'Z' then '+' :: '0' :: '0' :: ':' :: '0' :: '0' :: acc
      else c :: acc) [])

/-- int(datetime.fromisoformat(s).timestamp() * 1000): epoch milliseconds by
truncation toward zero (Python int()), None when the string does not parse. -/
def timestampMsOfIso (s : String) : Option Int :=
  (fromisoChars s.data).map (fun p => Int.tdiv (p.1 * 1000000 + (p.2 : Int)) 1000)

/-- JSON-like values carried in the metadata bag of an event. -/
inductive JsonLite where
  | nullV : JsonLite
  | strV : String → JsonLite
  | intV : Int → JsonLite
  | boolV : Bool → JsonLite
deriving DecidableEq, Repr

/-- Optional string as a JSON value (None becomes null). -/
def jsonOfStrOpt : Option String → JsonLite
  | none => JsonLite.nullV
  | some s => JsonLite.strV s

/-- Optional int as a JSON value. -/
def jsonOfIntOpt : Option Int → JsonLite
  | none => JsonLite.nullV
  | some n => JsonLite.intV n

/-- Optional bool as a JSON value. -/
def jsonOfBoolOpt : Option Bool → JsonLite
  | none => JsonLite.nullV
  | some b => JsonLite.boolV b

/-- The UniFiEvent dataclass. -/
structure UniFiEvent where
  timestamp : String
  event_type : String
  source : String
  site_id : String
  device_id : Option String
  client_mac : Option String
  severity : String
  message : String
  metadata : List (String × JsonLite)
deriving DecidableEq, Repr

/-- The dict produced by UniFiEvent.to_grafana_annotation. -/
structure GrafanaAnnot where
  time : Int
  text : String
  tags : List String
  title : String
deriving DecidableEq, Repr

/-- UniFiEvent.to_grafana_annotation.  The method raises on an unparseable
timestamp (callers run it inside a try block), modelled as None. -/
def UniFiEvent.toGrafanaAnnot (e : UniFiEvent) : Option GrafanaAnnot :=
  (timestampMsOfIso (zreplace e.timestamp)).map (fun t =>
    { time := t
      text := "[" ++ pyUpper e.source ++ "] " ++ e.message
      tags := [e.event_type, e.source, e.severity]
      title := pyTitle e.event_type ++ " Event" })

/-- UniFiEvent.to_prometheus_metric.  The label strings are joined by the
empty string exactly as the source does; a device_id label is appended only
when the field is truthy (present and non-empty). -/
def UniFiEvent.to_prometheus_metric (e : UniFiEvent) : Option String :=
  let labels :=
    ["source=\"" ++ e.source ++ "\"",
     "event_type=\"" ++ e.event_type ++ "\"",
     "site_id=\"" ++ e.site_id ++ "\"",
     "severity=\"" ++ e.severity ++ "\""] ++
    (match e.device_id with
     | some d => if d = "" then [] else ["device_id=\"" ++ d ++ "\""]
     | none => [])
  (timestampMsOfIso (zreplace e.timestamp)).map (fun t =>
    "unifi_event\x7b" ++ String.join labels ++ "\x7d 1 " ++ intToDec t)

/-- One record of the network controller site listing. -/
structure Site where
  name : Option String
deriving DecidableEq, Repr

/-- One record of a per-site active-client listing. -/
structure Client where
  mac : Option String
  last_seen : Option Int
  hostname : Option String
  ip : Option String
  ap_mac : Option String
deriving DecidableEq, Repr

/-- One record of the access-control event listing. -/
structure AccessRecord where
  id : Option String
  timestamp : Option String
  type : Option String
  site_id : Option String
  door_id : Option String
  door_name : Option String
  access_granted : Option Bool
  user_name : Option String
deriving DecidableEq, Repr

/-- One record of the camera (protect) event listing.  The end field of the
JSON record is named end_ because end is a Lean keyword. -/
structure ProtectRecord where
  id : Option String
  type : Option String
  camera : Option String
  camera_name : Option String
  score : Option Int
  start : Option Int
  end_ : Option Int
deriving DecidableEq, Repr

/-- Identity key of a network client record:
network_connect_{mac}_{last_seen} rendered as Python f-string text. -/
def netKey (c : Client) : String :=
  "network_connect_" ++ pyShow c.mac ++ "_" ++ pyShowInt c.last_seen

/-- Identity key of an access record: access_{id}. -/
def accessKey (r : AccessRecord) : String := "access_" ++ pyShow r.id

/-- Identity key of a protect record: protect_{id}. -/
def protectKey (r : ProtectRecord) : String := "protect_" ++ pyShow r.id

/-- The UniFiEvent built for a fresh network client; now is the ISO text of
datetime.now(timezone.utc) at the poll. -/
def mkNetworkEvent (now sid : String) (c : Client) : UniFiEvent :=
  { timestamp := now
    event_type := "client_connect"
    source := "network"
    site_id := sid
    device_id := none
    client_mac := c.mac
    severity := "info"
    message := "Client " ++ (c.hostname.getD ("Unknown")) ++ " (" ++
      pyShow c.mac ++ ") connected"
    metadata := [("ip", jsonOfStrOpt c.ip), ("ap", jsonOfStrOpt c.ap_mac)] }

/-- The UniFiEvent built for a fresh access record. -/
def mkAccessEvent (now : String) (r : AccessRecord) : UniFiEvent :=
  { timestamp := r.timestamp.getD now
    event_type := r.type.getD ("access_event")
    source := "access"
    site_id := r.site_id.getD ("default")
    device_id := r.door_id
    client_mac := none
    severity := if r.access_granted = some false then "warning" else "info"
    message := "Access " ++ pyShow r.type ++ " at " ++
      (r.door_name.getD ("Unknown Door"))
    metadata := [("user", jsonOfStrOpt r.user_name),
                 ("granted", jsonOfBoolOpt r.access_granted)] }

/-- The UniFiEvent built for a fresh protect record. -/
def mkProtectEvent (r : ProtectRecord) : UniFiEvent :=
  { timestamp := isoformatFromEpochMs (r.start.getD 0)
    event_type := r.type.getD ("camera_event")
    source := "protect"
    site_id := "default"
    device_id := r.camera
    client_mac := none
    severity := if r.type = some ("motion") then "warning" else "info"
    message := "Camera event: " ++ pyShow r.type ++ " on " ++
      (r.camera_name.getD ("Unknown Camera"))
    metadata := [("score", jsonOfIntOpt r.score),
                 ("duration", JsonLite.intV (r.end_.getD 0 - r.start.getD 0))] }

/-- The per-record loop shared by all three adapters: skip a record whose
identity key is in the seen set, otherwise add the key and emit the mapped
event.  Returns the new seen set and the events in record order. -/
def dedupFold {α : Type} (key : α → String) (mk : α → UniFiEvent) :
    List α → List String → List String × List UniFiEvent
  | [], seen => (seen, [])
  | r :: rs, seen =>
    if key r ∈ seen then dedupFold key mk rs seen
    else
      let p := dedupFold key mk rs (seen ++ [key r])
      (p.1, mk r :: p.2)

/-- Site loop of get_network_events.  A failing per-site clients call raises
out of the for loop into the adapter's except block, so the sites after it
are not enumerated and the events accumulated so far are returned. -/
def processSites (now : String) (clientsOf : String → Except Unit (List Client)) :
    List Site → List String → List String × List UniFiEvent
  | [], seen => (seen, [])
  | site :: rest, seen =>
    let sid := site.name.getD ("default")
    match clientsOf sid with
    | Except.error _ => (seen, [])
    | Except.ok cs =>
      let p := dedupFold netKey (mkNetworkEvent now sid) cs seen
      let q := processSites now clientsOf rest p.1
      (q.1, p.2 ++ q.2)

/-- UniFiEventStreamer.get_network_events: the sites listing and the per-site
clients listings are the upstream inputs; any raised failure is caught and
whatever was accumulated is returned. -/
def get_network_events (now : String) (sitesResp : Except Unit (List Site))
    (clientsOf : String → Except Unit (List Client)) (seen : List String) :
    List String × List UniFiEvent :=
  match sitesResp with
  | Except.error _ => (seen, [])
  | Except.ok sites => processSites now clientsOf sites seen

/-- UniFiEventStreamer.get_access_events. -/
def get_access_events (now : String) (resp : Except Unit (List AccessRecord))
    (seen : List String) : List String × List UniFiEvent :=
  match resp with
  | Except.error _ => (seen, [])
  | Except.ok rs => dedupFold accessKey (mkAccessEvent now) rs seen

/-- UniFiEventStreamer.get_protect_events (the events key unwrapping of the
response payload is part of the modelled fetch). -/
def get_protect_events (resp : Except Unit (List ProtectRecord))
    (seen : List String) : List String × List UniFiEvent :=
  match resp with
  | Except.error _ => (seen, [])
  | Except.ok rs => dedupFold protectKey mkProtectEvent rs seen

/-- The annotation posting loop of send_to_grafana_annotations: one HTTP call
per event, in order; a failing call raises out of the for loop into the
except block, so the remaining events are not attempted.  The result lists
the calls that were issued with their success flags. -/
def annotationCalls (postOk : UniFiEvent → Except Unit Unit) :
    List UniFiEvent → List (UniFiEvent × Bool)
  | [] => []
  | e :: rest =>
    match postOk e with
    | Except.ok _ => (e, true) :: annotationCalls postOk rest
    | Except.error _ => [(e, false)]

/-- UniFiEventStreamer.send_to_grafana_annotations: skips (no call at all)
when the Grafana API key is unset or empty (Python falsy). -/
def send_to_grafana_annotations (apiKey : Option String)
    (postOk : UniFiEvent → Except Unit Unit) (events : List UniFiEvent) :
    List (UniFiEvent × Bool) :=
  match apiKey with
  | none => []
  | some k => if k = "" then [] else annotationCalls postOk events

/-- The seen-events cleanup of poll_and_stream: when the store holds more
than 10000 keys, keep only 5000 of them.  Python materializes the set in
arbitrary order and keeps the last 5000; the model keeps the final 5000 of
the insertion-ordered list, one admissible materialization. -/
def evictSeen (seen : List String) : List String :=
  if seen.length > 10000 then seen.drop (seen.length - 5000) else seen

/-- Insertion of one identity key into the seen set (set.add). -/
def insertKey (seen : List String) (k : String) : List String :=
  if k ∈ seen then seen else seen ++ [k]

/-- Insertion of a cycle's worth of identity keys. -/
def insertKeys (seen : List String) (ks : List String) : List String :=
  ks.foldl insertKey seen

/-- Seen-set state observed at each cycle's eviction boundary, for a given
sequence of per-cycle key insertions. -/
def cycleStates (init : List String) : List (List String) → List (List String)
  | [] => []
  | ks :: rest =>
    let s := evictSeen (insertKeys init ks)
    s :: cycleStates s rest

/-- Repeated polling cycles of one adapter against a fixed upstream response,
collecting each cycle's emitted events. -/
def iterCycles (step : List String → List String × List UniFiEvent) :
    Nat → List String → List (List UniFiEvent)
  | 0, _ => []
  | n + 1, seen =>
    let p := step seen
    p.2 :: iterCycles step n p.1

/-- Concrete access record used as a sample input: the end-to-end scenario
record of the spec. -/
def sampleAccessRecord : AccessRecord :=
  { id := some "a1"
    timestamp := some "2024-01-01T00:00:00Z"
    type := some "access_denied"
    site_id := none
    door_id := some "door1"
    door_name := some "Front Door"
    access_granted := some false
    user_name := none }

/-- Concrete network client record used as a sample input. -/
def sampleClient : Client :=
  { mac := some "aa:bb:cc:dd:ee:ff"
    last_seen := some 5
    hostname := some "host"
    ip := none
    ap_mac := none }

/-- Concrete site record used as a sample input. -/
def sampleSite : Site := { name := some "s1" }

/-- Concrete protect record used as a sample input. -/
def sampleProtectRecord : ProtectRecord :=
  { id := some "p1"
    type := some "motion"
    camera := some "cam1"
    camera_name := some "Cam"
    score := some 50
    start := some 1704067200000
    end_ := some 1704067205000 }

/-- Sample events built from the sample records. -/
def sampleNetworkEvent : UniFiEvent :=
  mkNetworkEvent ("2024-01-01T00:00:00+00:00") ("s1") sampleClient

def sampleAccessEvent : UniFiEvent :=
  mkAccessEvent ("2024-01-02T00:00:00Z") sampleAccessRecord

def sampleProtectEvent : UniFiEvent := mkProtectEvent sampleProtectRecord

/-- Clients listing that fails for site s1 and succeeds with one client for
every other site. -/
def cexClientsOf : String → Except Unit (List Client) :=
  fun sid => if sid = "s1" then Except.error () else Except.ok [sampleClient]

/-- Numeric value of a decimal digit string. -/
def decVal (cs : List Char) : Nat :=
  cs.foldl (fun a c => 10 * a + (c.toNat - 48)) 0

/-- Formalization of the spec's words for the metric line, for comparison
with the code's to_prometheus_metric: a well-formed exposition-format line
has its labels comma-separated, and the spec includes the device_id label
exactly when the field is present. -/
def metricLineSpec (e : UniFiEvent) : Option String :=
  let labels :=
    ["source=\"" ++ e.source ++ "\"",
     "event_type=\"" ++ e.event_type ++ "\"",
     "site_id=\"" ++ e.site_id ++ "\"",
     "severity=\"" ++ e.severity ++ "\""] ++
    (match e.device_id with
     | some d => ["device_id=\"" ++ d ++ "\""]
     | none => [])
  (timestampMsOfIso (zreplace e.timestamp)).map (fun t =>
    "unifi_event\x7b" ++ String.intercalate (",") labels ++ "\x7d 1 " ++ intToDec t)

/-- Strings with equal character data are equal. -/
theorem str_ext {s t : String} (h : s.data = t.data) : s = t := by
  cases s; cases t; exact congrArg String.mk h

/-- Left cancellation for string concatenation. -/
theorem str_append_cancel_left {s t u : String} (h : s ++ t = s ++ u) : t = u := by
  have h2 : s.data ++ t.data = s.data ++ u.data := by
    simpa [String.data_append] using congrArg String.data h
  exact str_ext (List.append_cancel_left h2)

theorem decVal_append (xs : List Char) (c : Char) :
    decVal (xs ++ [c]) = 10 * decVal xs + (c.toNat - 48) := by
  simp [decVal, List.foldl_append]

theorem digitChar_toNat {d : Nat} (h : d < 10) : (Nat.digitChar d).toNat - 48 = d := by
  interval_cases d <;> rfl

theorem digitChar_isDigit {d : Nat} (h : d < 10) : (Nat.digitChar d).isDigit = true := by
  interval_cases d <;> rfl

/-- With enough fuel, the fuel-driven digit worker computes the reference
decimal digits followed by the accumulator. -/
theorem natDigitsAux_eq_decCharsWF :
    ∀ (fuel n : Nat), n < 10 ^ fuel → ∀ acc : List Char,
      natDigitsAux (fuel + 1) n acc = decCharsWF n ++ acc := by
  intro fuel
  induction fuel with
  | zero =>
    intro n hn acc
    have : n = 0 := by omega
    subst this
    simp [natDigitsAux, decCharsWF]
  | succ fuel ih =>
    intro n hn acc
    by_cases h : n < 10
    · rw [decCharsWF]
      simp [natDigitsAux, h]
    · have hdiv : n / 10 < 10 ^ fuel := by
        have h1 : n < 10 * 10 ^ fuel := by
          have := pow_succ 10 fuel
          omega
        omega
      rw [decCharsWF, dif_neg h]
      conv_lhs => rw [natDigitsAux]
      rw [if_neg h, ih (n / 10) hdiv]
      simp

theorem natToDecChars_eq (n : Nat) : natToDecChars n = decCharsWF n := by
  have h : n < 10 ^ n := Nat.lt_pow_self (by omega) n
  have := natDigitsAux_eq_decCharsWF n n h []
  simpa [natToDecChars] using this

theorem decVal_natToDecChars (n : Nat) : decVal (natToDecChars n) = n := by
  rw [natToDecChars_eq]
  induction n using Nat.strong_induction_on with
  | _ n ih =>
    rw [decCharsWF]
    by_cases h : n < 10
    · simp only [dif_pos h]
      simp [decVal, digitChar_toNat h]
    · simp only [dif_neg h]
      rw [decVal_append, ih (n / 10) (Nat.div_lt_self (by omega) (by omega)),
        digitChar_toNat (Nat.mod_lt n (by omega))]
      omega

theorem natToDecChars_head_digit (n : Nat) :
    ∃ c cs, natToDecChars n = c :: cs ∧ c.isDigit = true := by
  rw [natToDecChars_eq]
  induction n using Nat.strong_induction_on with
  | _ n ih =>
    rw [decCharsWF]
    by_cases h : n < 10
    · exact ⟨Nat.digitChar n, [], by simp [h, digitChar_isDigit h]⟩
    · obtain ⟨c, cs, hc, hd⟩ := ih (n / 10) (Nat.div_lt_self (by omega) (by omega))
      exact ⟨c, cs ++ [Nat.digitChar (n % 10)], by simp [h, hc], hd⟩

theorem natDec_inj {m n : Nat} (h : natDec m = natDec n) : m = n := by
  have h2 : natToDecChars m = natToDecChars n := congrArg String.data h
  calc m = decVal (natToDecChars m) := (decVal_natToDecChars m).symm
    _ = decVal (natToDecChars n) := by rw [h2]
    _ = n := decVal_natToDecChars n

/-- The decimal rendering of an int starts with a minus sign or a digit. -/
theorem intToDec_head (n : Int) :
    ∃ c cs, (intToDec n).data = c :: cs ∧ (c = '-' ∨ c.isDigit = true) := by
  unfold intToDec
  by_cases h : n < 0
  · obtain ⟨c, cs, hc, _⟩ := natToDecChars_head_digit n.natAbs
    exact ⟨'-', natToDecChars n.natAbs, by
      simp [h, natDec, String.data_append], Or.inl rfl⟩
  · obtain ⟨c, cs, hc, hd⟩ := natToDecChars_head_digit n.toNat
    exact ⟨c, cs, by simp [h, natDec, hc], Or.inr hd⟩

theorem intToDec_inj {a b : Int} (h : intToDec a = intToDec b) : a = b := by
  unfold intToDec at h
  by_cases ha : a < 0 <;> by_cases hb : b < 0
  · simp only [if_pos ha, if_pos hb] at h
    have := natDec_inj (str_append_cancel_left h)
    omega
  · simp only [if_pos ha, if_neg hb] at h
    obtain ⟨c, cs, hc, hd⟩ := natToDecChars_head_digit b.toNat
    have h2 : ('-' :: natToDecChars a.natAbs : List Char) = c :: cs := by
      have := congrArg String.data h
      simpa [natDec, String.data_append, hc] using this
    simp at h2
    obtain ⟨rfl, -⟩ := h2
    simp at hd
  · simp only [if_neg ha, if_pos hb] at h
    obtain ⟨c, cs, hc, hd⟩ := natToDecChars_head_digit a.toNat
    have h2 : (c :: cs : List Char) = '-' :: natToDecChars b.natAbs := by
      have := congrArg String.data h
      simpa [natDec, String.data_append, hc] using this
    simp at h2
    obtain ⟨rfl, -⟩ := h2
    simp at hd
  · simp only [if_neg ha, if_neg hb] at h
    have := natDec_inj h
    omega

theorem pyShowInt_inj {a b : Option Int} (h : pyShowInt a = pyShowInt b) : a = b := by
  cases a with
  | none =>
    cases b with
    | none => rfl
    | some n =>
      obtain ⟨c, cs, hc, hd⟩ := intToDec_head n
      have h2 : ('N' :: ['o', 'n', 'e'] : List Char) = c :: cs := by
        simpa [pyShowInt, hc] using congrArg String.data h
      simp at h2
      obtain ⟨rfl, -⟩ := h2
      rcases hd with h3 | h3 <;> simp at h3
  | some m =>
    cases b with
    | none =>
      obtain ⟨c, cs, hc, hd⟩ := intToDec_head m
      have h2 : (c :: cs : List Char) = 'N' :: ['o', 'n', 'e'] := by
        simpa [pyShowInt, hc] using congrArg String.data h
      simp at h2
      obtain ⟨rfl, -⟩ := h2
      rcases hd with h3 | h3 <;> simp at h3
    | some n =>
      simp only [pyShowInt] at h
      exact congrArg some (intToDec_inj h)

/-- Splitting at an underscore separator is unambiguous when neither left
part contains an underscore. -/
theorem underscore_split :
    ∀ (a₁ a₂ b₁ b₂ : List Char), '_' ∉ a₁ → '_' ∉ a₂ →
      a₁ ++ '_' :: b₁ = a₂ ++ '_' :: b₂ → a₁ = a₂ ∧ b₁ = b₂ := by
  intro a₁
  induction a₁ with
  | nil =>
    intro a₂ b₁ b₂ _ h₂ h
    cases a₂ with
    | nil => simpa using h
    | cons c cs =>
      simp only [List.nil_append, List.cons_append, List.cons.injEq] at h
      exact absurd (h.1 ▸ List.mem_cons_self c cs) h₂
  | cons c cs ih =>
    intro a₂ b₁ b₂ h₁ h₂ h
    cases a₂ with
    | nil =>
      simp only [List.nil_append, List.cons_append, List.cons.injEq] at h
      exact absurd (h.1 ▸ List.mem_cons_self c cs) h₁
    | cons d ds =>
      simp only [List.cons_append, List.cons.injEq] at h
      obtain ⟨rfl, h'⟩ := h
      have := ih ds b₁ b₂ (fun hm => h₁ (List.mem_cons_of_mem _ hm))
        (fun hm => h₂ (List.mem_cons_of_mem _ hm)) h'
      exact ⟨by rw [this.1], this.2⟩

theorem dedupFold_nil {α : Type} (key : α → String) (mk : α → UniFiEvent)
    (seen : List String) : dedupFold key mk [] seen = (seen, []) := rfl

theorem dedupFold_single {α : Type} (key : α → String) (mk : α → UniFiEvent)
    (r : α) (seen : List String) :
    dedupFold key mk [r] seen =
      if key r ∈ seen then (seen, []) else (seen ++ [key r], [mk r]) := by
  by_cases h : key r ∈ seen <;> simp [dedupFold, h]

/-- The per-record loop inserts exactly the keys of a sublist of fresh
records and emits exactly the events mapped from those same records. -/
theorem dedupFold_spec {α : Type} (key : α → String) (mk : α → UniFiEvent) :
    ∀ (rs : List α) (seen : List String), ∃ fresh : List α,
      List.Sublist fresh rs ∧
      (dedupFold key mk rs seen).1 = seen ++ fresh.map key ∧
      (dedupFold key mk rs seen).2 = fresh.map mk := by
  intro rs
  induction rs with
  | nil => intro seen; exact ⟨[], by simp [dedupFold]⟩
  | cons r rs ih =>
    intro seen
    by_cases h : key r ∈ seen
    · obtain ⟨fresh, hs, h1, h2⟩ := ih seen
      exact ⟨fresh, List.Sublist.cons r hs, by simpa [dedupFold, h] using ⟨h1, h2⟩⟩
    · obtain ⟨fresh, hs, h1, h2⟩ := ih (seen ++ [key r])
      refine ⟨r :: fresh, List.Sublist.cons₂ r hs, ?_, ?_⟩
      · simp [dedupFold, h, h1]
      · simp [dedupFold, h, h2]

/-- Every event emitted by the per-record loop is the image of a record of
the input list. -/
theorem mem_dedupFold {α : Type} {key : α → String} {mk : α → UniFiEvent}
    {rs : List α} {seen : List String} {e : UniFiEvent}
    (h : e ∈ (dedupFold key mk rs seen).2) : ∃ r, r ∈ rs ∧ e = mk r := by
  obtain ⟨fresh, hs, -, h2⟩ := dedupFold_spec key mk rs seen
  rw [h2] at h
  obtain ⟨r, hr, rfl⟩ := List.mem_map.mp h
  exact ⟨r, hs.subset hr, rfl⟩

/-- The site loop inserts exactly the keys of the fresh clients it maps and
emits exactly those clients' events, each tagged with its site id. -/
theorem processSites_spec (now : String)
    (clientsOf : String → Except Unit (List Client)) :
    ∀ (sites : List Site) (seen : List String), ∃ fresh : List (String × Client),
      (processSites now clientsOf sites seen).1 =
        seen ++ fresh.map (fun p => netKey p.2) ∧
      (processSites now clientsOf sites seen).2 =
        fresh.map (fun p => mkNetworkEvent now p.1 p.2) := by
  intro sites
  induction sites with
  | nil => intro seen; exact ⟨[], by simp [processSites]⟩
  | cons site rest ih =>
    intro seen
    by_cases h : ∃ cs, clientsOf (site.name.getD ("default")) = Except.ok cs
    · obtain ⟨cs, hcs⟩ := h
      obtain ⟨f₁, -, ha1, ha2⟩ :=
        dedupFold_spec netKey (mkNetworkEvent now (site.name.getD ("default"))) cs seen
      obtain ⟨f₂, hb1, hb2⟩ := ih (seen ++ f₁.map netKey)
      refine ⟨f₁.map (fun c => (site.name.getD ("default"), c)) ++ f₂, ?_, ?_⟩
      · simp only [processSites, hcs]
        rw [ha1, hb1]
        simp [List.map_map, Function.comp]
      · simp only [processSites, hcs]
        rw [ha1, hb2, ha2]
        simp [List.map_map, Function.comp]
    · have herr : clientsOf (site.name.getD ("default")) = Except.error () := by
        cases hh : clientsOf (site.name.getD ("default")) with
        | error u => cases u; rfl
        | ok cs => exact absurd ⟨cs, hh⟩ h
      exact ⟨[], by simp [processSites, herr]⟩

/-- Every event emitted by the network site loop is a network event of some
site id and client. -/
theorem mem_processSites {now : String}
    {clientsOf : String → Except Unit (List Client)} {sites : List Site}
    {seen : List String} {e : UniFiEvent}
    (h : e ∈ (processSites now clientsOf sites seen).2) :
    ∃ sid c, e = mkNetworkEvent now sid c := by
  obtain ⟨fresh, -, h2⟩ := processSites_spec now clientsOf sites seen
  rw [h2] at h
  obtain ⟨p, -, rfl⟩ := List.mem_map.mp h
  exact ⟨p.1, p.2, rfl⟩

/-- Once the key is present, a cycle of a single-record adapter emits
nothing and leaves the store unchanged, so all remaining cycles do too. -/
theorem iterCycles_drop (step : List String → List String × List UniFiEvent)
    (key : String) (h2 : ∀ s, key ∈ s → step s = (s, [])) :
    ∀ (n : Nat) (s : List String), key ∈ s →
      iterCycles step n s = List.replicate n [] := by
  intro n
  induction n with
  | zero => intro s _; rfl
  | succ n ih =>
    intro s hs
    simp [iterCycles, h2 s hs, ih s hs, List.replicate_succ]

/-- A single-record adapter that inserts-and-emits exactly when its key is
fresh emits the event in the first cycle and nothing afterwards. -/
theorem iterCycles_once (step : List String → List String × List UniFiEvent)
    (key : String) (ev : UniFiEvent)
    (h1 : ∀ s, key ∉ s → step s = (s ++ [key], [ev]))
    (h2 : ∀ s, key ∈ s → step s = (s, []))
    (n : Nat) (s₀ : List String) (h : key ∉ s₀) :
    iterCycles step (n + 1) s₀ = [ev] :: List.replicate n [] := by
  simp [iterCycles, h1 s₀ h,
    iterCycles_drop step key h2 n (s₀ ++ [key]) (by simp)]

theorem access_step_fresh (now : String) (r : AccessRecord) (seen : List String)
    (h : accessKey r ∉ seen) :
    get_access_events now (Except.ok [r]) seen =
      (seen ++ [accessKey r], [mkAccessEvent now r]) := by
  simp [get_access_events, dedupFold_single, h]

theorem access_step_seen (now : String) (r : AccessRecord) (seen : List String)
    (h : accessKey r ∈ seen) :
    get_access_events now (Except.ok [r]) seen = (seen, []) := by
  simp [get_access_events, dedupFold_single, h]

theorem network_step_fresh (now : String) (site : Site) (c : Client)
    (seen : List String) (h : netKey c ∉ seen) :
    get_network_events now (Except.ok [site]) (fun _ => Except.ok [c]) seen =
      (seen ++ [netKey c], [mkNetworkEvent now (site.name.getD ("default")) c]) := by
  simp [get_network_events, processSites, dedupFold_single, h]

theorem network_step_seen (now : String) (site : Site) (c : Client)
    (seen : List String) (h : netKey c ∈ seen) :
    get_network_events now (Except.ok [site]) (fun _ => Except.ok [c]) seen =
      (seen, []) := by
  simp [get_network_events, processSites, dedupFold_single, h]

/-- C5: whenever the dedup store's size exceeds the 10000-key high-water
mark, the eviction step truncates it to at most 5000 keys, and the store
size observed at every cycle's eviction boundary never exceeds 10000. -/
theorem dedup_eviction_bound :
    (∀ seen : List String, seen.length > 10000 → (evictSeen seen).length ≤ 5000) ∧
    (∀ (init : List String) (cycles : List (List String)),
      ∀ st ∈ cycleStates init cycles, st.length ≤ 10000) := by
  have hev : ∀ s : List String, (evictSeen s).length ≤ 10000 := by
    intro s
    unfold evictSeen
    split
    · simp only [List.length_drop]
      omega
    · omega
  refine ⟨?_, ?_⟩
  · intro s h
    unfold evictSeen
    rw [if_pos h]
    simp only [List.length_drop]
    omega
  · intro init cycles
    induction cycles generalizing init with
    | nil => intro st hst; simp [cycleStates] at hst
    | cons ks rest ih =>
      intro st hst
      simp only [cycleStates, List.mem_cons] at hst
      rcases hst with rfl | hst
      · exact hev _
      · exact ih _ st hst

/-- Witness for C5 at a store of 10001 keys and a one-cycle insertion run. -/
theorem dedup_eviction_bound_witness :
    (evictSeen (List.replicate 10001 ("k"))).length ≤ 5000 ∧
    (evictSeen (insertKeys [] [("a")])).length ≤ 10000 := by
  refine ⟨dedup_eviction_bound.1 (List.replicate 10001 ("k"))
    (by simp only [List.length_replicate]; omega), ?_⟩
  exact dedup_eviction_bound.2 [] [[("a")]] _ (by simp [cycleStates])

/-- Calls all succeed: one call per event, in order. -/
theorem annotationCalls_all_ok (postOk : UniFiEvent → Except Unit Unit) :
    ∀ events : List UniFiEvent, (∀ e ∈ events, postOk e = Except.ok ()) →
      annotationCalls postOk events = events.map (fun e => (e, true)) := by
  intro events
  induction events with
  | nil => intro _; rfl
  | cons e rest ih =>
    intro h
    have he := h e (List.mem_cons_self e rest)
    simp [annotationCalls, he, ih (fun x hx => h x (List.mem_cons_of_mem e hx))]

/-- A failing call ends the batch: the events before it are delivered, the
failing one is attempted, the rest are skipped. -/
theorem annotationCalls_abort (postOk : UniFiEvent → Except Unit Unit)
    (e : UniFiEvent) (he : postOk e = Except.error ()) :
    ∀ (pre post : List UniFiEvent), (∀ x ∈ pre, postOk x = Except.ok ()) →
      annotationCalls postOk (pre ++ e :: post) =
        pre.map (fun x => (x, true)) ++ [(e, false)] := by
  intro pre
  induction pre with
  | nil => intro post _; simp [annotationCalls, he]
  | cons x pre' ih =>
    intro post h
    have hx := h x (List.mem_cons_self x pre')
    simp [annotationCalls, hx, ih post (fun y hy => h y (List.mem_cons_of_mem x hy))]

/-- C4 (amended): the annotation forwarder skips entirely without any HTTP
call when no (or an empty) Grafana credential is configured; with a
credential it issues one call per event only until the first failure: the
failing call is caught but delivery of the remaining events of the batch is
aborted, the events before the failure having been delivered. -/
theorem annotation_forwarder_batch :
    (∀ (postOk : UniFiEvent → Except Unit Unit) (events : List UniFiEvent),
      send_to_grafana_annotations none postOk events = []) ∧
    (∀ (postOk : UniFiEvent → Except Unit Unit) (events : List UniFiEvent),
      send_to_grafana_annotations (some ("")) postOk events = []) ∧
    (∀ (k : String) (postOk : UniFiEvent → Except Unit Unit)
      (events : List UniFiEvent), k ≠ "" → (∀ e ∈ events, postOk e = Except.ok ()) →
      send_to_grafana_annotations (some k) postOk events =
        events.map (fun e => (e, true))) ∧
    (∀ (k : String) (postOk : UniFiEvent → Except Unit Unit)
      (e : UniFiEvent) (pre post : List UniFiEvent), k ≠ "" →
      (∀ x ∈ pre, postOk x = Except.ok ()) → postOk e = Except.error () →
      send_to_grafana_annotations (some k) postOk (pre ++ e :: post) =
        pre.map (fun x => (x, true)) ++ [(e, false)]) := by
  refine ⟨fun _ _ => rfl, fun _ _ => rfl, ?_, ?_⟩
  · intro k postOk events hk h
    simp [send_to_grafana_annotations, hk, annotationCalls_all_ok postOk events h]
  · intro k postOk e pre post hk h he
    simp [send_to_grafana_annotations, hk, annotationCalls_abort postOk e he pre post h]

/-- Witness for C4: a one-event batch delivered with a credential, skipped
without one, and a failing head call aborting a two-event batch. -/
theorem annotation_forwarder_batch_witness :
    send_to_grafana_annotations (some ("tok")) (fun _ => Except.ok ())
      [sampleNetworkEvent] = [sampleNetworkEvent].map (fun e => (e, true)) ∧
    send_to_grafana_annotations (some ("tok")) (fun _ => Except.error ())
      ([] ++ sampleNetworkEvent :: [sampleProtectEvent]) =
      ([] : List UniFiEvent).map (fun x => (x, true)) ++ [(sampleNetworkEvent, false)] := by
  refine ⟨?_, ?_⟩
  · exact annotation_forwarder_batch.2.2.1 ("tok") _ _ (by decide) (fun _ _ => rfl)
  · exact annotation_forwarder_batch.2.2.2 ("tok") _ _ [] [sampleProtectEvent]
      (by decide) (fun _ h => absurd h (List.not_mem_nil _)) rfl

/-- Counterexample to C4 as stated: with a credential configured, a batch of
two events whose first call fails and whose second call would succeed
delivers nothing beyond the failed attempt — the second event is never
attempted, so a failure of one event's call does abort the rest. -/
theorem annotation_batch_cex :
    send_to_grafana_annotations (some ("tok"))
      (fun e => if e = sampleNetworkEvent then Except.error () else Except.ok ())
      [sampleNetworkEvent, sampleProtectEvent] = [(sampleNetworkEvent, false)] ∧
    (fun e => if e = sampleNetworkEvent then Except.error () else Except.ok ())
      sampleProtectEvent = Except.ok () := by
  exact ⟨by decide, if_neg (by decide)⟩

/-- C2 (amended): a failure fetching one site's client listing is caught by
the adapter, but enumeration stops there: the cycle's result is exactly that
of enumerating only the sites before the failing one, and the sites after it
contribute nothing. -/
theorem network_site_failure_scope (now : String)
    (clientsOf : String → Except Unit (List Client)) (bad : Site)
    (hbad : clientsOf (bad.name.getD ("default")) = Except.error ()) :
    ∀ (pre post : List Site) (seen : List String),
      processSites now clientsOf (pre ++ bad :: post) seen =
        processSites now clientsOf pre seen := by
  intro pre
  induction pre with
  | nil => intro post seen; simp [processSites, hbad]
  | cons s pre' ih =>
    intro post seen
    cases hcs : clientsOf (s.name.getD ("default")) with
    | error u =>
      simp only [List.cons_append, processSites, hcs]
    | ok cs =>
      simp only [List.cons_append, processSites, hcs, List.append_eq]
      rw [ih post]

/-- Witness for C2's amended statement on concrete sites. -/
theorem network_site_failure_scope_witness :
    processSites ("T") cexClientsOf
      ([{ name := some ("s2") }] ++ { name := some ("s1") } :: [{ name := some ("s3") }]) [] =
      processSites ("T") cexClientsOf [{ name := some ("s2") }] [] := by
  exact network_site_failure_scope ("T") cexClientsOf { name := some ("s1") } rfl
    [{ name := some ("s2") }] [{ name := some ("s3") }] []

/-- Counterexample to C2 as stated: with sites s1 and s2 listed in that
order and the clients call failing for s1 only, the s2 client event that the
claim requires is not produced — though the same upstream state does produce
it when s2 is reached. -/
theorem network_nested_resilience_cex :
    mkNetworkEvent ("T") ("s2") sampleClient ∉
      (get_network_events ("T")
        (Except.ok [{ name := some ("s1") }, { name := some ("s2") }])
        cexClientsOf []).2 ∧
    mkNetworkEvent ("T") ("s2") sampleClient ∈
      (get_network_events ("T") (Except.ok [{ name := some ("s2") }])
        cexClientsOf []).2 := by
  refine ⟨by decide, by decide⟩

/-- C6 (amended): access events carry the upstream record's timestamp when
the record has one and fall back to the poll clock otherwise, protect events
carry the ISO rendering of the record's start field, but network events
carry the poll clock itself (observation time) as their timestamp. -/
theorem event_timestamp_sources :
    (∀ (now sid : String) (c : Client), (mkNetworkEvent now sid c).timestamp = now) ∧
    (∀ (now : String) (r : AccessRecord) (ts : String),
      r.timestamp = some ts → (mkAccessEvent now r).timestamp = ts) ∧
    (∀ (now : String) (r : AccessRecord),
      r.timestamp = none → (mkAccessEvent now r).timestamp = now) ∧
    (∀ p : ProtectRecord,
      (mkProtectEvent p).timestamp = isoformatFromEpochMs (p.start.getD 0)) := by
  refine ⟨fun _ _ _ => rfl, ?_, ?_, fun _ => rfl⟩
  · intro now r ts h
    simp [mkAccessEvent, h]
  · intro now r h
    simp [mkAccessEvent, h]

/-- Witness for C6's amended statement. -/
theorem event_timestamp_sources_witness :
    (mkNetworkEvent ("2024-01-01T00:00:00+00:00") ("s1") sampleClient).timestamp =
      "2024-01-01T00:00:00+00:00" ∧
    (mkAccessEvent ("2024-01-02T00:00:00Z") sampleAccessRecord).timestamp =
      "2024-01-01T00:00:00Z" := by
  exact ⟨event_timestamp_sources.1 _ _ _,
    event_timestamp_sources.2.1 _ sampleAccessRecord _ rfl⟩

/-- Counterexample to C6 as stated: the same raw client record polled at two
different clock instants yields events with different timestamps, each equal
to the poll instant — the network adapter records observation time, not a
time from the record. -/
theorem network_timestamp_cex :
    (mkNetworkEvent ("2024-01-01T00:00:00+00:00") ("s1") sampleClient).timestamp ≠
      (mkNetworkEvent ("2025-06-30T12:00:00+00:00") ("s1") sampleClient).timestamp ∧
    (mkNetworkEvent ("2025-06-30T12:00:00+00:00") ("s1") sampleClient).timestamp =
      "2025-06-30T12:00:00+00:00" := by
  exact ⟨by decide, rfl⟩

/-- C1: a raw record returned unchanged by its upstream in each of N
consecutive cycles (dedup store carried across, no eviction) yields exactly
one event: the first cycle maps it, every later cycle silently drops it.
Stated for the access adapter and for the network adapter. -/
theorem dedup_idempotence :
    (∀ (now : String) (r : AccessRecord) (n : Nat) (seen₀ : List String),
      accessKey r ∉ seen₀ →
      iterCycles (fun s => get_access_events now (Except.ok [r]) s) (n + 1) seen₀ =
        [mkAccessEvent now r] :: List.replicate n []) ∧
    (∀ (now : String) (site : Site) (c : Client) (n : Nat) (seen₀ : List String),
      netKey c ∉ seen₀ →
      iterCycles
        (fun s => get_network_events now (Except.ok [site]) (fun _ => Except.ok [c]) s)
        (n + 1) seen₀ =
        [mkNetworkEvent now (site.name.getD ("default")) c] :: List.replicate n []) := by
  constructor
  · intro now r n seen₀ h
    exact iterCycles_once _ (accessKey r) _
      (fun s hs => access_step_fresh now r s hs)
      (fun s hs => access_step_seen now r s hs) n seen₀ h
  · intro now site c n seen₀ h
    exact iterCycles_once _ (netKey c) _
      (fun s hs => network_step_fresh now site c s hs)
      (fun s hs => network_step_seen now site c s hs) n seen₀ h

/-- Witness for C1: three consecutive cycles over the sample access record
and the sample client starting from an empty store. -/
theorem dedup_idempotence_witness :
    iterCycles
      (fun s => get_access_events ("2024-01-02T00:00:00Z")
        (Except.ok [sampleAccessRecord]) s) 3 [] =
      [mkAccessEvent ("2024-01-02T00:00:00Z") sampleAccessRecord] ::
        List.replicate 2 [] ∧
    iterCycles
      (fun s => get_network_events ("T") (Except.ok [sampleSite])
        (fun _ => Except.ok [sampleClient]) s) 3 [] =
      [mkNetworkEvent ("T") ("s1") sampleClient] :: List.replicate 2 [] := by
  exact ⟨dedup_idempotence.1 _ sampleAccessRecord 2 [] (by decide),
    dedup_idempotence.2 _ sampleSite sampleClient 2 [] (by decide)⟩

/-- C3 (amended): adapters are total functions of their upstream responses
(failures are caught, never propagated); a failed top-level fetch yields the
empty contribution with the store untouched; the network adapter, whose
failure can occur mid-enumeration, returns the events accumulated before the
failure (possibly non-empty); and in every case the keys inserted into the
dedup store are exactly the keys of the records whose events are returned. -/
theorem adapter_failsoft_state :
    (∀ (now : String) (clientsOf : String → Except Unit (List Client))
      (seen : List String),
      get_network_events now (Except.error ()) clientsOf seen = (seen, [])) ∧
    (∀ (now : String) (seen : List String),
      get_access_events now (Except.error ()) seen = (seen, [])) ∧
    (∀ seen : List String, get_protect_events (Except.error ()) seen = (seen, [])) ∧
    (∀ (now : String) (resp : Except Unit (List AccessRecord)) (seen : List String),
      ∃ fresh : List AccessRecord,
        (get_access_events now resp seen).1 = seen ++ fresh.map accessKey ∧
        (get_access_events now resp seen).2 = fresh.map (mkAccessEvent now)) ∧
    (∀ (resp : Except Unit (List ProtectRecord)) (seen : List String),
      ∃ fresh : List ProtectRecord,
        (get_protect_events resp seen).1 = seen ++ fresh.map protectKey ∧
        (get_protect_events resp seen).2 = fresh.map mkProtectEvent) ∧
    (∀ (now : String) (sitesResp : Except Unit (List Site))
      (clientsOf : String → Except Unit (List Client)) (seen : List String),
      ∃ fresh : List (String × Client),
        (get_network_events now sitesResp clientsOf seen).1 =
          seen ++ fresh.map (fun p => netKey p.2) ∧
        (get_network_events now sitesResp clientsOf seen).2 =
          fresh.map (fun p => mkNetworkEvent now p.1 p.2)) := by
  refine ⟨fun _ _ _ => rfl, fun _ _ => rfl, fun _ => rfl, ?_, ?_, ?_⟩
  · intro now resp seen
    cases resp with
    | error u => exact ⟨[], by simp [get_access_events]⟩
    | ok rs =>
      obtain ⟨fresh, -, h1, h2⟩ := dedupFold_spec accessKey (mkAccessEvent now) rs seen
      exact ⟨fresh, h1, h2⟩
  · intro resp seen
    cases resp with
    | error u => exact ⟨[], by simp [get_protect_events]⟩
    | ok rs =>
      obtain ⟨fresh, -, h1, h2⟩ := dedupFold_spec protectKey mkProtectEvent rs seen
      exact ⟨fresh, h1, h2⟩
  · intro now sitesResp clientsOf seen
    cases sitesResp with
    | error u => exact ⟨[], by simp [get_network_events]⟩
    | ok sites => exact processSites_spec now clientsOf sites seen

/-- Counterexample to C3 as stated: a cycle in which the second listed
site's clients call fails returns the first site's event — a non-empty
result for a failing cycle, not the empty result the claim requires. -/
theorem adapter_failsoft_cex :
    (get_network_events ("T")
      (Except.ok [{ name := some ("s2") }, { name := some ("s1") }])
      cexClientsOf []).2 = [mkNetworkEvent ("T") ("s2") sampleClient] := by
  decide

/-- C9: network events always have severity info; access events have
severity warning exactly when the record's access_granted field is the JSON
boolean false, else info; protect events have severity warning exactly when
the record's type is motion, else info; and no adapter assigns any other
severity. -/
theorem severity_derivation :
    (∀ (now : String) (sitesResp : Except Unit (List Site))
      (clientsOf : String → Except Unit (List Client)) (seen : List String)
      (e : UniFiEvent),
      e ∈ (get_network_events now sitesResp clientsOf seen).2 →
      e.severity = "info") ∧
    (∀ (now : String) (resp : Except Unit (List AccessRecord))
      (seen : List String) (e : UniFiEvent),
      e ∈ (get_access_events now resp seen).2 →
      ∃ r : AccessRecord, e = mkAccessEvent now r ∧
        e.severity = (if r.access_granted = some false then "warning" else "info")) ∧
    (∀ (resp : Except Unit (List ProtectRecord)) (seen : List String)
      (e : UniFiEvent),
      e ∈ (get_protect_events resp seen).2 →
      ∃ r : ProtectRecord, e = mkProtectEvent r ∧
        e.severity = (if r.type = some ("motion") then "warning" else "info")) ∧
    (∀ (now : String) (resp : Except Unit (List AccessRecord))
      (seen : List String) (e : UniFiEvent),
      e ∈ (get_access_events now resp seen).2 →
      e.severity = "info" ∨ e.severity = "warning") ∧
    (∀ (resp : Except Unit (List ProtectRecord)) (seen : List String)
      (e : UniFiEvent),
      e ∈ (get_protect_events resp seen).2 →
      e.severity = "info" ∨ e.severity = "warning") := by
  have hnet : ∀ (now : String) (sitesResp : Except Unit (List Site))
      (clientsOf : String → Except Unit (List Client)) (seen : List String)
      (e : UniFiEvent),
      e ∈ (get_network_events now sitesResp clientsOf seen).2 →
      e.severity = "info" := by
    intro now sitesResp clientsOf seen e he
    cases sitesResp with
    | error u => simp [get_network_events] at he
    | ok sites =>
      obtain ⟨sid, c, rfl⟩ := mem_processSites he
      rfl
  have hacc : ∀ (now : String) (resp : Except Unit (List AccessRecord))
      (seen : List String) (e : UniFiEvent),
      e ∈ (get_access_events now resp seen).2 →
      ∃ r : AccessRecord, e = mkAccessEvent now r ∧
        e.severity = (if r.access_granted = some false then "warning" else "info") := by
    intro now resp seen e he
    cases resp with
    | error u => simp [get_access_events] at he
    | ok rs =>
      obtain ⟨r, -, rfl⟩ := mem_dedupFold he
      exact ⟨r, rfl, rfl⟩
  have hprot : ∀ (resp : Except Unit (List ProtectRecord)) (seen : List String)
      (e : UniFiEvent),
      e ∈ (get_protect_events resp seen).2 →
      ∃ r : ProtectRecord, e = mkProtectEvent r ∧
        e.severity = (if r.type = some ("motion") then "warning" else "info") := by
    intro resp seen e he
    cases resp with
    | error u => simp [get_protect_events] at he
    | ok rs =>
      obtain ⟨r, -, rfl⟩ := mem_dedupFold he
      exact ⟨r, rfl, rfl⟩
  refine ⟨hnet, hacc, hprot, ?_, ?_⟩
  · intro now resp seen e he
    obtain ⟨r, -, hs⟩ := hacc now resp seen e he
    by_cases h : r.access_granted = some false <;> simp [h] at hs <;> simp [hs]
  · intro resp seen e he
    obtain ⟨r, -, hs⟩ := hprot resp seen e he
    by_cases h : r.type = some ("motion") <;> simp [h] at hs <;> simp [hs]

/-- Witness for C9 on concrete runs of the three adapters. -/
theorem severity_derivation_witness :
    (mkNetworkEvent ("T") ("s1") sampleClient).severity = "info" ∧
    (∃ r : AccessRecord,
      mkAccessEvent ("T") sampleAccessRecord = mkAccessEvent ("T") r ∧
      (mkAccessEvent ("T") sampleAccessRecord).severity =
        (if r.access_granted = some false then "warning" else "info")) ∧
    (∃ r : ProtectRecord,
      mkProtectEvent sampleProtectRecord = mkProtectEvent r ∧
      (mkProtectEvent sampleProtectRecord).severity =
        (if r.type = some ("motion") then "warning" else "info")) := by
  refine ⟨?_, ?_, ?_⟩
  · exact severity_derivation.1 ("T") (Except.ok [sampleSite])
      (fun _ => Except.ok [sampleClient]) [] _ (by decide)
  · exact severity_derivation.2.1 ("T") (Except.ok [sampleAccessRecord]) [] _
      (by decide)
  · exact severity_derivation.2.2.1 (Except.ok [sampleProtectRecord]) [] _
      (by decide)

/-- C7: evaluation of to_prometheus_metric on the sample access-denied
event, against the exposition format the spec defines.  The code joins its
label strings with the empty string, so the label section of the produced
line has no comma separators and the line is not a well-formed
name-labels-value-timestamp exposition line; the comma-separated line the
spec describes differs. -/
theorem metric_line_eval :
    sampleAccessEvent.to_prometheus_metric =
      some ("unifi_event\x7bsource=\"access\"event_type=\"access_denied\"site_id=\"default\"severity=\"warning\"device_id=\"door1\"\x7d 1 1704067200000") ∧
    metricLineSpec sampleAccessEvent =
      some ("unifi_event\x7bsource=\"access\",event_type=\"access_denied\",site_id=\"default\",severity=\"warning\",device_id=\"door1\"\x7d 1 1704067200000") ∧
    sampleAccessEvent.to_prometheus_metric ≠ metricLineSpec sampleAccessEvent := by
  exact ⟨by decide, by decide, by decide⟩

/-- C8 (amended): for an event whose timestamp parses as an offset-aware
ISO-8601 string, to_grafana_annotation carries the epoch-millisecond time,
the text with the upper-cased source in brackets before the message, the
tags event_type, source, severity in that order, and as title the
title-cased event_type followed by the literal word Event. -/
theorem annotation_view_shape (e : UniFiEvent) (ms : Int)
    (h : timestampMsOfIso (zreplace e.timestamp) = some ms) :
    e.toGrafanaAnnot = some
      { time := ms
        text := "[" ++ pyUpper e.source ++ "] " ++ e.message
        tags := [e.event_type, e.source, e.severity]
        title := pyTitle e.event_type ++ " Event" } := by
  simp [UniFiEvent.toGrafanaAnnot, h]

/-- Witness for C8's amended statement at the sample protect event. -/
theorem annotation_view_shape_witness :
    timestampMsOfIso (zreplace sampleProtectEvent.timestamp) =
      some 1704067200000 ∧
    sampleProtectEvent.toGrafanaAnnot = some
      { time := 1704067200000
        text := "[" ++ pyUpper sampleProtectEvent.source ++ "] " ++
          sampleProtectEvent.message
        tags := [sampleProtectEvent.event_type, sampleProtectEvent.source,
          sampleProtectEvent.severity]
        title := pyTitle sampleProtectEvent.event_type ++ " Event" } := by
  exact ⟨by decide, annotation_view_shape sampleProtectEvent 1704067200000 (by decide)⟩

/-- Counterexample to C8 as stated: the annotation title of a motion event
is the word Motion followed by the word Event, not the title-cased
event_type alone. -/
theorem annotation_title_cex :
    Option.map GrafanaAnnot.title sampleProtectEvent.toGrafanaAnnot =
      some ("Motion Event") ∧
    pyTitle sampleProtectEvent.event_type = "Motion" ∧
    Option.map GrafanaAnnot.title sampleProtectEvent.toGrafanaAnnot ≠
      some (pyTitle sampleProtectEvent.event_type) := by
  exact ⟨by decide, by decide, by decide⟩

theorem data_underscore : ("_" : String).data = ['_'] := rfl

/-- C10 (amended): identity keys depend only on the key fields, so records
differing outside them share a key; and keys discriminate as far as the
f-string rendering allows: present, distinct ids give distinct access and
protect keys, and present macs without underscores give distinct network
keys whenever the mac or the last_seen value differs. -/
theorem identity_key_props :
    (∀ c₁ c₂ : Client, c₁.mac = c₂.mac → c₁.last_seen = c₂.last_seen →
      netKey c₁ = netKey c₂) ∧
    (∀ r₁ r₂ : AccessRecord, r₁.id = r₂.id → accessKey r₁ = accessKey r₂) ∧
    (∀ r₁ r₂ : ProtectRecord, r₁.id = r₂.id → protectKey r₁ = protectKey r₂) ∧
    (∀ (r₁ r₂ : AccessRecord) (i₁ i₂ : String), r₁.id = some i₁ →
      r₂.id = some i₂ → i₁ ≠ i₂ → accessKey r₁ ≠ accessKey r₂) ∧
    (∀ (r₁ r₂ : ProtectRecord) (i₁ i₂ : String), r₁.id = some i₁ →
      r₂.id = some i₂ → i₁ ≠ i₂ → protectKey r₁ ≠ protectKey r₂) ∧
    (∀ (c₁ c₂ : Client) (m₁ m₂ : String), c₁.mac = some m₁ → c₂.mac = some m₂ →
      '_' ∉ m₁.data → '_' ∉ m₂.data →
      (m₁ ≠ m₂ ∨ c₁.last_seen ≠ c₂.last_seen) → netKey c₁ ≠ netKey c₂) := by
  refine ⟨?_, ?_, ?_, ?_, ?_, ?_⟩
  · intro c₁ c₂ h₁ h₂
    simp [netKey, h₁, h₂]
  · intro r₁ r₂ h
    simp [accessKey, h]
  · intro r₁ r₂ h
    simp [protectKey, h]
  · intro r₁ r₂ i₁ i₂ h₁ h₂ hne hk
    have hk' : "access_" ++ i₁ = "access_" ++ i₂ := by
      simpa [accessKey, h₁, h₂, pyShow] using hk
    exact hne (str_append_cancel_left hk')
  · intro r₁ r₂ i₁ i₂ h₁ h₂ hne hk
    have hk' : "protect_" ++ i₁ = "protect_" ++ i₂ := by
      simpa [protectKey, h₁, h₂, pyShow] using hk
    exact hne (str_append_cancel_left hk')
  · intro c₁ c₂ m₁ m₂ h₁ h₂ hm₁ hm₂ hne hk
    have hd : "network_connect_".data ++
        (m₁.data ++ '_' :: (pyShowInt c₁.last_seen).data) =
        "network_connect_".data ++
        (m₂.data ++ '_' :: (pyShowInt c₂.last_seen).data) := by
      have h0 := congrArg String.data hk
      simpa [netKey, h₁, h₂, pyShow, String.data_append, data_underscore,
        List.append_assoc, List.singleton_append] using h0
    obtain ⟨hm, ht⟩ := underscore_split _ _ _ _ hm₁ hm₂
      (List.append_cancel_left hd)
    rcases hne with hne | hne
    · exact hne (str_ext hm)
    · exact hne (pyShowInt_inj (str_ext ht))

/-- Witness for C10's amended statement on concrete records. -/
theorem identity_key_props_witness :
    netKey sampleClient = netKey { sampleClient with hostname := some ("other") } ∧
    accessKey sampleAccessRecord ≠
      accessKey { sampleAccessRecord with id := some ("a2") } ∧
    netKey sampleClient ≠ netKey { sampleClient with last_seen := some 6 } := by
  refine ⟨identity_key_props.1 _ _ rfl rfl, ?_, ?_⟩
  · exact identity_key_props.2.2.2.1 _ _ ("a1") ("a2") rfl rfl (by decide)
  · exact identity_key_props.2.2.2.2.2 _ _ ("aa:bb:cc:dd:ee:ff")
      ("aa:bb:cc:dd:ee:ff") rfl rfl (by decide) (by decide)
      (Or.inr (by decide))

/-- Counterexample to C10 as stated: a record with a missing mac and one
whose mac is the literal string None differ in a key field yet render to the
same identity key, because the f-string prints a missing field as None. -/
theorem identity_key_collision_cex :
    (Client.mk none (some 7) none none none).mac ≠
      (Client.mk (some ("None")) (some 7) none none none).mac ∧
    netKey (Client.mk none (some 7) none none none) =
      netKey (Client.mk (some ("None")) (some 7) none none none) := by
  exact ⟨by decide, by decide⟩
